import Mathlib

/-!
Verification of the go-transform reflective traversal and namespace-resolution
engine (package `transform`, file `transform.go`).

The Go value universe reachable by the engine (`reflect.Value`) is embedded as
an inductive `Value`; Go strings are embedded as `List Char`; Go's `int` family
is embedded as `Int`/`Nat` with explicit width clamping where `strconv` clamps.
Fallible operations (slicing a string out of bounds, indexing a slice with a
negative index, the explicit `panic("Invalid field namespace")`) are embedded
as explicit `fault` results.
-/

namespace GoTransform

/-- Kinds of the reflect value model, mirroring the `reflect.Kind` cases the
engine inspects (`Ptr`, `Interface`, `Invalid`, `Struct`, `Array`, `Slice`,
`Map`, and the scalar kinds it can only fall through on). -/
inductive Kind where
  | invalid
  | string
  | int
  | bool
  | float
  | ptr
  | interface
  | struct
  | array
  | slice
  | map
deriving DecidableEq, Repr

/-- Static key kind of a Go map type, as inspected by
`current.Type().Key().Kind()` in the map branch of the resolver. -/
inductive KeyKind where
  | int | int8 | int16 | int32 | int64
  | uint | uint8 | uint16 | uint32 | uint64
  | float32 | float64
  | bool
  | string
deriving DecidableEq, Repr

/-- A map key value after conversion to the map's static key kind.
Integer keys carry the converted (width-clamped) integer; float keys carry the
parsed decimal as an exact rational (IEEE-754 rounding of `strconv.ParseFloat`
is abstracted: a decimal literal is represented by its exact value). -/
inductive MapKey where
  | ofInt (n : Int)
  | ofUint (n : Nat)
  | ofFloat (q : Rat)
  | ofBool (b : Bool)
  | ofString (s : List Char)
deriving DecidableEq, Repr

/-- The Go value universe traversed by the engine. `ptr`/`iface` carry
`none` when the wrapper is nil (`IsNil()`), mirroring `reflect.Value.Elem`.
A struct value carries the flag `Type().ConvertibleTo(timeType)` (whether the
struct type is convertible to `time.Time`) and its named fields in declaration
order; field names are Go strings (`List Char`). -/
inductive Value where
  | invalid
  | vstring (s : List Char)
  | vint (n : Int)
  | vbool (b : Bool)
  | vfloat (q : Rat)
  | ptr (v : Option Value)
  | iface (v : Option Value)
  | vstruct (timeConv : Bool) (fields : List (List Char × Value))
  | slice (xs : List Value)
  | array (xs : List Value)
  | vmap (kk : KeyKind) (entries : List (MapKey × Value))

/-- The `reflect.Kind` of a value. -/
def Value.kind : Value → Kind
  | .invalid => .invalid
  | .vstring _ => .string
  | .vint _ => .int
  | .vbool _ => .bool
  | .vfloat _ => .float
  | .ptr _ => .ptr
  | .iface _ => .interface
  | .vstruct _ _ => .struct
  | .slice _ => .slice
  | .array _ => .array
  | .vmap _ _ => .map

/-- Whether the value's struct type is convertible to `time.Time`
(`typ.ConvertibleTo(timeType)`); `false` on non-struct values, which never
reach that check behind a `Kind() == Struct` test. -/
def Value.timeConv : Value → Bool
  | .vstruct b _ => b
  | _ => false

/-- The declared fields of a struct value (empty on non-structs). -/
def Value.structFields : Value → List (List Char × Value)
  | .vstruct _ fs => fs
  | _ => []

/-- The elements of a slice or array value (empty on other values). -/
def Value.elems : Value → List Value
  | .slice xs => xs
  | .array xs => xs
  | _ => []

/-- The static key kind of a map value. -/
def Value.keyKind : Value → KeyKind
  | .vmap kk _ => kk
  | _ => .string

/-- The entries of a map value. -/
def Value.mentries : Value → List (MapKey × Value)
  | .vmap _ es => es
  | _ => []

/-- `reflect.Value.FieldByName`: exact-match lookup of a named field; the
zero `reflect.Value` (kind `Invalid`) when no such field exists. -/
def fieldByName (fields : List (List Char × Value)) (n : List Char) : Value :=
  match fields.find? (fun f => decide (f.1 = n)) with
  | some f => f.2
  | none => .invalid

/-- `reflect.Value.MapIndex`: lookup of a key in a map value; the zero
`reflect.Value` (kind `Invalid`) when the key is absent. -/
def mapIndex (entries : List (MapKey × Value)) (k : MapKey) : Value :=
  match entries.find? (fun e => decide (e.1 = k)) with
  | some e => e.2
  | none => .invalid

/-!  ## The type unwrapper: `extractTypeInternal`  -/

/-- `extractTypeInternal` (transform.go lines 386-426): dives through pointer
and interface layers, marking `nullable`; returns immediately with the
wrapper's own kind on a nil wrapper, with kind `Invalid` on an invalid value,
and with the concrete value and its kind otherwise.  The Go `goto BEGIN` loop
is structural recursion here: each jump strips exactly one wrapper layer. -/
def extractTypeInternal : Value → Bool → Value × Kind × Bool
  | .ptr none, _ => (.ptr none, .ptr, true)
  | .ptr (some v), _ => extractTypeInternal v true
  | .iface none, _ => (.iface none, .interface, true)
  | .iface (some v), _ => extractTypeInternal v true
  | .invalid, nb => (.invalid, .invalid, nb)
  | v, nb => (v, v.kind, nb)

/-- The Go loop of `extractTypeInternal` with an explicit iteration budget:
`none` means the budget was exhausted before the loop returned.  One unit of
fuel is consumed per arrival at the `BEGIN` label. -/
def extractTypeLoop : Nat → Value → Bool → Option (Value × Kind × Bool)
  | 0, _, _ => none
  | _ + 1, .ptr none, _ => some (.ptr none, .ptr, true)
  | fuel + 1, .ptr (some v), _ => extractTypeLoop fuel v true
  | _ + 1, .iface none, _ => some (.iface none, .interface, true)
  | fuel + 1, .iface (some v), _ => extractTypeLoop fuel v true
  | _ + 1, .invalid, nb => some (.invalid, .invalid, nb)
  | _ + 1, v, nb => some (v, v.kind, nb)

/-- The indirection depth of a value: the number of non-nil pointer or
interface layers around the concrete value. -/
def indirectionDepth : Value → Nat
  | .ptr (some v) => indirectionDepth v + 1
  | .iface (some v) => indirectionDepth v + 1
  | _ => 0

/-- A value that is not a pointer or interface wrapper (nil or otherwise). -/
def notWrapper : Value → Prop
  | .ptr _ => False
  | .iface _ => False
  | _ => True

/-!  ## String helpers: `strings.Index`, Go slicing, `strconv`  -/

/-- `strings.Index s c` for a single-character needle: the index of the first
occurrence, `none` standing for Go's `-1`. -/
def strIndex (s : List Char) (c : Char) : Option Nat :=
  match s with
  | [] => none
  | x :: xs => if x = c then some 0 else (strIndex xs c).map (fun i => i + 1)

/-- Go string slicing `s[lo:hi]`; `none` models the "slice bounds out of
range" runtime panic when `lo ≤ hi ≤ len s` fails. -/
def goSlice (s : List Char) (lo hi : Nat) : Option (List Char) :=
  if lo ≤ hi ∧ hi ≤ s.length then some ((s.take hi).drop lo) else none

/-- Numeric value of a digit string. -/
def digitsVal (l : List Char) : Nat :=
  l.foldl (fun a c => a * 10 + (c.toNat - 48)) 0

/-- Optional leading sign of a decimal literal: the sign factor and the
remaining characters. -/
def parseSign (s : List Char) : Int × List Char :=
  match s with
  | [] => (1, [])
  | x :: r => if x = '+' then (1, r) else if x = '-' then (-1, r) else (1, x :: r)

/-- `strconv.ParseInt(s, 10, bits)` with the error discarded by the caller
(as every call site in the engine does): syntax errors yield `0`; range
errors yield the clamped extreme of the requested width, which is also what
the subsequent Go narrowing conversion (`int8(i)` etc.) then preserves.
`strconv.Atoi` is this at width 64. -/
def parseIntClamped (bits : Nat) (s : List Char) : Int :=
  let sr := parseSign s
  if sr.2 = [] ∨ ¬ sr.2.all Char.isDigit then 0
  else
    let v : Int := sr.1 * (digitsVal sr.2 : Int)
    let lo : Int := -(2 ^ (bits - 1))
    let hi : Int := 2 ^ (bits - 1) - 1
    if v < lo then lo else if hi < v then hi else v

/-- `strconv.ParseUint(s, 10, bits)` with the error discarded: no sign is
accepted; syntax errors yield `0`; range errors clamp to `2^bits - 1`. -/
def parseUintClamped (bits : Nat) (s : List Char) : Nat :=
  if s = [] ∨ ¬ s.all Char.isDigit then 0
  else
    let v := digitsVal s
    let hi := 2 ^ bits - 1
    if hi < v then hi else v

/-- `strconv.ParseFloat` with the error discarded, restricted to plain decimal
forms `[+-]digits[.digits]` (the engine's namespace grammar produces only
such keys); the parsed decimal is represented exactly as a rational, with the
IEEE-754 rounding step abstracted away.  Syntax errors yield `0`. -/
def parseFloatQ (s : List Char) : Rat :=
  let sr := parseSign s
  match strIndex sr.2 '.' with
  | none =>
      if sr.2 = [] ∨ ¬ sr.2.all Char.isDigit then 0
      else (sr.1 : Rat) * (digitsVal sr.2 : Rat)
  | some i =>
      let ip := sr.2.take i
      let fp := sr.2.drop (i + 1)
      if (ip ++ fp) = [] ∨ ¬ ip.all Char.isDigit ∨ ¬ fp.all Char.isDigit then 0
      else (sr.1 : Rat) * ((digitsVal ip : Rat) + (digitsVal fp : Rat) / ((10 : Rat) ^ fp.length))

/-- `strconv.ParseBool` with the error discarded: the six accepted true
spellings yield `true`; everything else (including the accepted false
spellings and all syntax errors) leaves the Go zero value `false`. -/
def parseBool (s : List Char) : Bool :=
  decide (s = ['1'] ∨ s = ['t'] ∨ s = ['T'] ∨
    s = ['t', 'r', 'u', 'e'] ∨ s = ['T', 'R', 'U', 'E'] ∨ s = ['T', 'r', 'u', 'e'])

/-- The `switch current.Type().Key().Kind()` of the map branch (transform.go
lines 510-580): converts the bracketed key substring to the map's static key
kind.  Every signed and unsigned integer width, both floating-point widths,
boolean, and string (the default case) are covered. -/
def convertMapKey (kk : KeyKind) (key : List Char) : MapKey :=
  match kk with
  | .int => .ofInt (parseIntClamped 64 key)
  | .int8 => .ofInt (parseIntClamped 8 key)
  | .int16 => .ofInt (parseIntClamped 16 key)
  | .int32 => .ofInt (parseIntClamped 32 key)
  | .int64 => .ofInt (parseIntClamped 64 key)
  | .uint => .ofUint (parseUintClamped 64 key)
  | .uint8 => .ofUint (parseUintClamped 8 key)
  | .uint16 => .ofUint (parseUintClamped 16 key)
  | .uint32 => .ofUint (parseUintClamped 32 key)
  | .uint64 => .ofUint (parseUintClamped 64 key)
  | .float32 => .ofFloat (parseFloatQ key)
  | .float64 => .ofFloat (parseFloatQ key)
  | .bool => .ofBool (parseBool key)
  | .string => .ofString key

/-!  ## The namespace resolver: `getStructFieldOKInternal`  -/

/-- Splitting of the leading field segment in the struct branch (transform.go
lines 453-467): split at the first `.`; then, if the field part contains a
`[`, cut the field at the bracket and restart the remaining namespace at the
bracket position of the original namespace. -/
def structParse (p : List Char) : List Char × List Char :=
  let first : List Char × List Char :=
    match strIndex p '.' with
    | some i => (p.take i, p.drop (i + 1))
    | none => (p, [])
  match strIndex first.1 '[' with
  | some b => (first.1.take b, p.drop b)
  | none => first

/-- Result of one resolver call: the Go named results
`(current, kind, nullable, found)`, a runtime fault (an explicit `panic` or a
slice-bounds/index panic), or exhaustion of the iteration budget. -/
inductive Res where
  | ok (current : Value) (kind : Kind) (nullable found : Bool)
  | fault (msg : List Char)
  | fuelOut

/-- Two resolver results that agree except possibly in the `nullable`
component of a success result (the only component the nullable flag of the
extraction feeds). -/
def Res.sameShape : Res → Res → Prop
  | .ok c k _ f, .ok c' k' _ f' => c = c' ∧ k = k' ∧ f = f'
  | .fault m, .fault m' => m = m'
  | .fuelOut, .fuelOut => True
  | _, _ => False

/-- Message of the explicit `panic("Invalid field namespace")`. -/
def invalidNamespaceMsg : List Char :=
  ['I', 'n', 'v', 'a', 'l', 'i', 'd', ' ', 'f', 'i', 'e', 'l', 'd', ' ',
   'n', 'a', 'm', 'e', 's', 'p', 'a', 'c', 'e']

/-- Message of a Go slice-bounds panic. -/
def sliceBoundsMsg : List Char :=
  ['s', 'l', 'i', 'c', 'e', ' ', 'b', 'o', 'u', 'n', 'd', 's']

/-- Message of a Go index-out-of-range panic (negative index). -/
def indexRangeMsg : List Char :=
  ['i', 'n', 'd', 'e', 'x', ' ', 'r', 'a', 'n', 'g', 'e']

/-- One arrival at the `BEGIN` label of `getStructFieldOKInternal`
(transform.go lines 428-587), after the `ExtractType` call: everything from
the `kind == Invalid` check through the kind switch and the final
`panic("Invalid field namespace")`.  The `goto BEGIN` jumps are the calls to
the continuation `rec` (instantiated below with the resolver at one unit of
fuel less).  Faults embed the Go panics: the explicit
`panic("Invalid field namespace")` after the switch, and the runtime panics
of out-of-bounds string slicing and negative slice indexing. -/
def sfokStep (rec : Value → List Char → Res) (e : Value × Kind × Bool)
    (ns : List Char) : Res :=
  let current := e.1
  let kind := e.2.1
  let nullable := e.2.2
  if kind = .invalid then .ok current kind nullable false
  else if ns = [] then .ok current kind nullable true
  else
    match kind with
    | .ptr => .ok current kind nullable false
    | .interface => .ok current kind nullable false
    | .struct =>
      if current.timeConv then .fault invalidNamespaceMsg
      else
        let p := structParse ns
        rec (fieldByName current.structFields p.1) p.2
    | .array | .slice =>
      match strIndex ns ']' with
      | none => .fault sliceBoundsMsg
      | some idx2 =>
        let lo := match strIndex ns '[' with | some i => i + 1 | none => 0
        match goSlice ns lo idx2 with
        | none => .fault sliceBoundsMsg
        | some sub =>
          let arrIdx := parseIntClamped 64 sub
          if (current.elems.length : Int) ≤ arrIdx then .ok current kind nullable false
          else if arrIdx < 0 then .fault indexRangeMsg
          else
            let startIdx := if ns.get? (idx2 + 1) = some '.' then idx2 + 2 else idx2 + 1
            rec (current.elems.getD arrIdx.toNat .invalid) (ns.drop startIdx)
    | .map =>
      match strIndex ns ']' with
      | none => .fault sliceBoundsMsg
      | some idx2 =>
        let lo := match strIndex ns '[' with | some i => i + 1 | none => 0
        match goSlice ns lo idx2 with
        | none => .fault sliceBoundsMsg
        | some key =>
          let endIdx := if ns.get? (idx2 + 1) = some '.' then idx2 + 1 else idx2
          rec (mapIndex current.mentries (convertMapKey current.keyKind key))
            (ns.drop (endIdx + 1))
    | _ => .fault invalidNamespaceMsg

/-- `getStructFieldOKInternal` (transform.go lines 428-587): the namespace
resolver.  One unit of fuel is consumed per `goto BEGIN` jump; `fuelOut`
means the budget ran out (the theorems always supply enough fuel). -/
def getStructFieldOKInternal : Nat → Value → List Char → Res
  | 0, _, _ => .fuelOut
  | fuel + 1, val, ns =>
    sfokStep (getStructFieldOKInternal fuel) (extractTypeInternal val false) ns

/-!  ## The public entry point guard: `StructCtx`  -/

/-- Outcome of `StructCtx` as far as the usage-error guard is concerned:
either the `*InvalidTransformError` is returned before any traversal starts,
or the engine proceeds to traverse the given (dereferenced) struct value. -/
inductive StructOutcome where
  | invalidTransform
  | proceed (root : Value)

/-- The argument guard of `StructCtx` (transform.go lines 282-296): the input
`s interface{}` is `reflect.ValueOf(s)` (kind `Invalid` for a nil root); a
non-nil pointer is dereferenced once; if the resulting kind is not `Struct`,
or the struct type is convertible to `time.Time`, `*InvalidTransformError` is
returned immediately — the traversal (`transformStruct`) is never entered and
nothing is mutated.  Otherwise the traversal proceeds on the dereferenced
value. -/
def structCtx (s : Value) : StructOutcome :=
  let val : Value :=
    match s with
    | .ptr (some v) => v
    | v => v
  if val.kind ≠ .struct ∨ val.timeConv then .invalidTransform
  else .proceed val

/-- The single pointer dereference at the top of `StructCtx`
(`if val.Kind() == reflect.Ptr && !val.IsNil() { val = val.Elem() }`). -/
def derefOnce : Value → Value
  | .ptr (some v) => v
  | v => v

/-!  ## The transformation registry: `New` and `registerTransformer`  -/

/-- Stand-in for Go's `FuncCtx` (`func(ctx context.Context, fl FieldLevel)
bool`): the registry claims only store such functions, never invoke them, so
the context and field-level arguments are abstracted into an opaque function
type; `Option` distinguishes a nil Go function value. -/
def FuncCtxM : Type := List Char → Bool

/-- The `Transform` struct (transform.go lines 234-240), restricted to the
fields the registry claims inspect: the tag name and the `transformtions`
map.  A Go map is `Option` of an association list: `none` is the nil map of
a zero-valued field (writes into it panic).  The `sync.Pool` and tag-name
function fields are scratch/configuration state not touched by these
claims. -/
structure TransformM where
  tagName : List Char
  transformtions : Option (List (List Char × FuncCtxM))

/-- `defaultTagName = "transform"` (transform.go line 16). -/
def defaultTagName : List Char :=
  ['t', 'r', 'a', 'n', 's', 'f', 'o', 'r', 'm']

/-- `restrictedTags` (transform.go line 24): the reserved-name set, declared
empty and never extended anywhere in the package. -/
def restrictedTags : List (List Char) := []

/-- `New` (transform.go lines 243-263): builds the default `Transform`
(leaving `transformtions` as the nil zero value) and applies the options in
order. -/
def New (opts : List (TransformM → TransformM)) : TransformM :=
  opts.foldl (fun t o => o t) { tagName := defaultTagName, transformtions := none }

/-- Go map assignment `m[k] = v` on the association-list model: replaces the
binding of `k` if present, appends it otherwise. -/
def mapSet (m : List (List Char × FuncCtxM)) (k : List Char) (v : FuncCtxM) :
    List (List Char × FuncCtxM) :=
  match m with
  | [] => [(k, v)]
  | (k', v') :: rest => if k' = k then (k, v) :: rest else (k', v') :: mapSet rest k v

/-- Result of `registerTransformer`: a returned `error`, the runtime panic of
assigning into a nil map, or success with the updated transformer. -/
inductive RegisterResult where
  | err (msg : List Char)
  | nilMapFault
  | ok (t : TransformM)

/-- Error message `"function Key cannot be empty"`. -/
def errKeyEmpty : List Char :=
  ['f', 'u', 'n', 'c', 't', 'i', 'o', 'n', ' ', 'K', 'e', 'y', ' ',
   'c', 'a', 'n', 'n', 'o', 't', ' ', 'b', 'e', ' ', 'e', 'm', 'p', 't', 'y']

/-- Error message `"function cannot be empty"`. -/
def errFnEmpty : List Char :=
  ['f', 'u', 'n', 'c', 't', 'i', 'o', 'n', ' ',
   'c', 'a', 'n', 'n', 'o', 't', ' ', 'b', 'e', ' ', 'e', 'm', 'p', 't', 'y']

/-- `registerTransformer` (transform.go lines 314-326): an error for an empty
tag, an error for a nil function, and otherwise the assignment
`t.transformtions[tag] = wrapper` — which is a runtime fault when the
`transformtions` map is nil, and stores the function otherwise.  No check
against `restrictedTags` is performed. -/
def registerTransformer (t : TransformM) (tag : List Char) (fn : Option FuncCtxM) :
    RegisterResult :=
  if tag.length = 0 then .err errKeyEmpty
  else
    match fn with
    | none => .err errFnEmpty
    | some f =>
      match t.transformtions with
      | none => .nilMapFault
      | some m => .ok { t with transformtions := some (mapSet m tag f) }

/-!  ## The traversal engine, modelled from the spec

`transformStruct` (transform.go lines 380-381) is declared in the source with
an empty body, and the `NewTransformer`/`Transform` engine exercised by the
repository's tests is not part of the sources at hand; the traversal and
dispatch behaviour below is therefore modelled from the spec (§4.1 Directive
Parser, §4.4 Traversal Engine, §4.5 Dispatcher, §8 testable properties) and
from the repository's test expectations for the built-in directives. -/

/-- Char list of a string literal (readability helper for concrete inputs). -/
def cs (s : String) : List Char := s.toList

/-- Split a char list at every occurrence of the separator (Go
`strings.Split`): always returns at least one (possibly empty) part. -/
def splitChar (c : Char) : List Char → List (List Char)
  | [] => [[]]
  | x :: xs =>
    match splitChar c xs with
    | [] => [[x]]
    | cur :: rest => if x = c then [] :: cur :: rest else (x :: cur) :: rest

/-- Split at the first occurrence of the separator into (before, after);
the second part is empty when the separator is absent. -/
def splitAtFirst (c : Char) (l : List Char) : List Char × List Char :=
  match strIndex l c with
  | none => (l, [])
  | some i => (l.take i, l.drop (i + 1))

/-- Modelled from the spec (§4.1 Directive Parser; the parser itself is part
of the engine missing from the sources): a raw tag string becomes an ordered
chain of (name, parameter) directives, split on `,`, each entry split at the
first `=`; a missing parameter is the empty string; the empty tag yields the
empty chain. -/
def parseTag (tag : List Char) : List (List Char × List Char) :=
  if tag = [] then []
  else (splitChar ',' tag).map (fun d => splitAtFirst '=' d)

/-- Modelled from the spec (§1, §6 and the repository tests): the built-in
string transformations `trim`, `ltrim`, `rtrim`, `lowercase`, `uppercase`
("trivial one-line string operations treated as pluggable leaf behavior"). -/
def ltrimChars (s : List Char) : List Char := s.dropWhile (fun c => c.isWhitespace)

/-- Right trim of whitespace. -/
def rtrimChars (s : List Char) : List Char :=
  (s.reverse.dropWhile (fun c => c.isWhitespace)).reverse

/-- Trim of whitespace on both sides. -/
def trimChars (s : List Char) : List Char := ltrimChars (rtrimChars s)

/-- ASCII lowercase of every character. -/
def lowerChars (s : List Char) : List Char := s.map Char.toLower

/-- ASCII uppercase of every character. -/
def upperChars (s : List Char) : List Char := s.map Char.toUpper

/-- A registered transformation on a string field: current value and
directive parameter in, `some` new value on success, `none` on failure. -/
def RegFn : Type := List Char → List Char → Option (List Char)

/-- Modelled from the spec (§6 Transformation Registry, with the names and
behaviour fixed by the repository tests): the registry the dispatcher
consults, holding the built-in directives; lookup of any other name fails
(an unknown directive). -/
def builtinRegistry (name : List Char) : Option RegFn :=
  if name = cs "trim" then some (fun s _ => some (trimChars s))
  else if name = cs "ltrim" then some (fun s _ => some (ltrimChars s))
  else if name = cs "rtrim" then some (fun s _ => some (rtrimChars s))
  else if name = cs "lowercase" then some (fun s _ => some (lowerChars s))
  else if name = cs "uppercase" then some (fun s _ => some (upperChars s))
  else none

/-- A per-field error record: (field name, failing directive name). -/
def FieldErrM : Type := List Char × List Char

/-- Result of applying one field's directive chain to a string value. -/
inductive ChainRes where
  | ok (s : List Char)
  | failedAt (s : List Char) (dir : List Char)
  | unknown (dir : List Char)

/-- Modelled from the spec (§4.5 Dispatcher): apply the directives of a chain
in declared order; an unknown name is a fatal configuration error; a failing
directive short-circuits the rest of the chain (mutations already applied
remain); a succeeding directive's mutation is visible to the next one. -/
def applyChain : List (List Char × List Char) → List Char → ChainRes
  | [], s => .ok s
  | (n, p) :: rest, s =>
    match builtinRegistry n with
    | none => .unknown n
    | some f =>
      match f s p with
      | some s' => applyChain rest s'
      | none => .failedAt s n

/-- Apply a field's raw tag to a string value: fatal on an unknown directive,
otherwise the new value together with the per-field errors (one entry when
the chain failed). -/
def applyTagStr (fieldName tag s : List Char) :
    Except (List Char) (List Char × List FieldErrM) :=
  match applyChain (parseTag tag) s with
  | .ok s' => .ok (s', [])
  | .failedAt s' d => .ok (s', [(fieldName, d)])
  | .unknown d => .error d

mutual
/-- Modelled from the spec (§3 Data Model, §4.4): a record value as the
traversal engine sees it — terminal string fields, nullable-wrapped string
fields, and nested records; each field carries its structural name and its
raw directive tag. -/
inductive TVal where
  | str (s : List Char)
  | strOpt (s : Option (List Char))
  | record (fs : TFields)

/-- The field list of a record, in declaration order. -/
inductive TFields where
  | nil
  | fcons (name tag : List Char) (v : TVal) (rest : TFields)
end

mutual
/-- Modelled from the spec (§4.4 Traversal Engine, §4.5 Dispatcher; this is
the body of `transformStruct`, empty in the sources): visit one field — a
nested record is recursed into; a nullable field holding no value is skipped
without invoking any directive; a terminal string field has its directive
chain applied in place. -/
def transformField (name tag : List Char) : TVal → Except (List Char) (TVal × List FieldErrM)
  | .record fs =>
    match transformFields fs with
    | .error d => .error d
    | .ok (fs', es) => .ok (.record fs', es)
  | .strOpt none => .ok (.strOpt none, [])
  | .strOpt (some s) =>
    match applyTagStr name tag s with
    | .error d => .error d
    | .ok (s', es) => .ok (.strOpt (some s'), es)
  | .str s =>
    match applyTagStr name tag s with
    | .error d => .error d
    | .ok (s', es) => .ok (.str s', es)

/-- Modelled from the spec (§4.4): enumerate a record's declared fields in
declaration order, accumulating per-field errors; a fatal configuration
error aborts the whole traversal. -/
def transformFields : TFields → Except (List Char) (TFields × List FieldErrM)
  | .nil => .ok (.nil, [])
  | .fcons name tag v rest =>
    match transformField name tag v with
    | .error d => .error d
    | .ok (v', es) =>
      match transformFields rest with
      | .error d => .error d
      | .ok (rest', es2) => .ok (.fcons name tag v' rest', es ++ es2)
end

/-- Outcome of the public entry point on the modelled engine. -/
inductive TransOut where
  | invalidTransform
  | fatalTag (dir : List Char)
  | done (fields : TFields) (errs : List FieldErrM)

/-- Modelled from the spec (§6 public entry points; the glue of
`Struct`/`StructCtx` around the missing `transformStruct` body): a nil root
is the usage error; otherwise the record is traversed, a fatal configuration
error aborts, and the aggregated per-field errors (none ⇒ nil error) are
returned with the mutated record. -/
def structTransModel (root : Option TFields) : TransOut :=
  match root with
  | none => .invalidTransform
  | some fs =>
    match transformFields fs with
    | .error d => .fatalTag d
    | .ok (fs', es) => .done fs' es

/-!  ## Shape matching of a namespace path, from the spec  -/

/-- Advancing "past the closing bracket (and a following separator if
present)": drop one leading `.` when there is one. -/
def dropSep (l : List Char) : List Char :=
  match l with
  | [] => []
  | x :: r => if x = '.' then r else x :: r

/-- A clean field-name segment: contains neither the structural separator
`.` nor a bracket `[`. -/
def goodSeg (fld : List Char) : Prop :=
  ∀ c ∈ fld, c ≠ '.' ∧ c ≠ '['

/-- Modelled from the spec (§4.3 step 6 and §7 *Structural errors*): the
namespace path "matches the shape of the record graph".  The empty remaining
path always matches; an invalid value or an empty nullable wrapper matches
any remaining path (the resolver reports not-found there); a non-empty
wrapper matches whatever its contents match; a non-time record matches a
leading field segment whose remainder matches the named field (present or
not — `fieldByName` yields the invalid value when absent); a sequence
matches a bracketed decimal index (below the `int64` range `strconv` clamps
at) whose remainder matches the selected element whenever the index is in
bounds; a map matches a bracketed key whose remainder matches the looked-up
entry.  A scalar, or a date/time-like record, matches only the empty
remaining path. -/
inductive PathMatches : Value → List Char → Prop where
  | done (v : Value) : PathMatches v []
  | invalidAny (p : List Char) : PathMatches .invalid p
  | nilPtr (p : List Char) : PathMatches (.ptr none) p
  | nilIface (p : List Char) : PathMatches (.iface none) p
  | unwrapPtr {w : Value} {p : List Char} :
      PathMatches w p → PathMatches (.ptr (some w)) p
  | unwrapIface {w : Value} {p : List Char} :
      PathMatches w p → PathMatches (.iface (some w)) p
  | fieldLast {fs : List (List Char × Value)} {fld : List Char} :
      goodSeg fld → PathMatches (fieldByName fs fld) [] →
      PathMatches (.vstruct false fs) fld
  | fieldDot {fs : List (List Char × Value)} {fld r : List Char} :
      goodSeg fld → PathMatches (fieldByName fs fld) r →
      PathMatches (.vstruct false fs) (fld ++ '.' :: r)
  | fieldBracket {fs : List (List Char × Value)} {fld r : List Char} :
      goodSeg fld → PathMatches (fieldByName fs fld) ('[' :: r) →
      PathMatches (.vstruct false fs) (fld ++ '[' :: r)
  | sliceIndex {xs : List Value} {digs rest : List Char} :
      digs ≠ [] → (∀ c ∈ digs, c.isDigit) → digitsVal digs < 2 ^ 63 →
      (∀ h : digitsVal digs < xs.length,
        PathMatches (xs.get ⟨digitsVal digs, h⟩) (dropSep rest)) →
      PathMatches (.slice xs) ('[' :: (digs ++ ']' :: rest))
  | arrayIndex {xs : List Value} {digs rest : List Char} :
      digs ≠ [] → (∀ c ∈ digs, c.isDigit) → digitsVal digs < 2 ^ 63 →
      (∀ h : digitsVal digs < xs.length,
        PathMatches (xs.get ⟨digitsVal digs, h⟩) (dropSep rest)) →
      PathMatches (.array xs) ('[' :: (digs ++ ']' :: rest))
  | mapKey {kk : KeyKind} {es : List (MapKey × Value)} {key rest : List Char} :
      (∀ c ∈ key, c ≠ ']') →
      PathMatches (mapIndex es (convertMapKey kk key)) (dropSep rest) →
      PathMatches (.vmap kk es) ('[' :: (key ++ ']' :: rest))

mutual
/-- No field of the value declares a directive (recursively): the premise of
the identity property (§8). -/
def noDirsV : TVal → Bool
  | .str _ => true
  | .strOpt _ => true
  | .record fs => noDirsF fs

/-- No field of the field list declares a directive (recursively). -/
def noDirsF : TFields → Bool
  | .nil => true
  | .fcons _ tag v rest => tag = [] && noDirsV v && noDirsF rest
end

/-!  # Lemmas  -/

theorem strIndex_eq_none {s : List Char} {c : Char} (h : ∀ x ∈ s, x ≠ c) :
    strIndex s c = none := by
  induction s with
  | nil => rfl
  | cons x xs ih =>
    have hx : x ≠ c := h x (by simp)
    simp [strIndex, hx, ih (fun y hy => h y (by simp [hy]))]

theorem strIndex_append_cons {a : List Char} {c : Char} (b : List Char)
    (h : ∀ x ∈ a, x ≠ c) : strIndex (a ++ c :: b) c = some a.length := by
  induction a with
  | nil => simp [strIndex]
  | cons x xs ih =>
    have hx : x ≠ c := h x (by simp)
    have := ih (fun y hy => h y (by simp [hy]))
    simp [strIndex, hx, this]

theorem strIndex_cons_ne {x : Char} {c : Char} (xs : List Char) (h : x ≠ c) :
    strIndex (x :: xs) c = (strIndex xs c).map (fun i => i + 1) := by
  simp [strIndex, h]

theorem strIndex_append (a b : List Char) (c : Char) :
    strIndex (a ++ b) c =
      match strIndex a c with
      | some i => some i
      | none => (strIndex b c).map (fun i => i + a.length) := by
  induction a with
  | nil =>
    simp only [List.nil_append, strIndex, List.length_nil]
    cases strIndex b c <;> simp
  | cons x xs ih =>
    by_cases hx : x = c
    · simp [strIndex, hx]
    · rw [List.cons_append, strIndex_cons_ne _ hx, strIndex_cons_ne _ hx, ih]
      cases hxs : strIndex xs c with
      | some i => simp
      | none =>
        cases hb : strIndex b c with
        | none => simp
        | some j =>
          simp only [Option.map_some, Option.map_none, List.length_cons]
          exact congrArg some (by simp; omega)

/-!  ## Parsing of a bracketed segment `"[" ++ key ++ "]" ++ rest`  -/

theorem strIndex_bracket_left (key rest : List Char) :
    strIndex ('[' :: (key ++ ']' :: rest)) '[' = some 0 := by
  simp [strIndex]

theorem strIndex_bracket_right {key : List Char} (rest : List Char)
    (h : ∀ c ∈ key, c ≠ ']') :
    strIndex ('[' :: (key ++ ']' :: rest)) ']' = some (key.length + 1) := by
  rw [strIndex_cons_ne _ (by decide), strIndex_append_cons rest h]
  rfl

theorem take_len_append (a b : List Char) : (a ++ b).take a.length = a :=
  List.take_left a b

theorem drop_len_append (a b : List Char) : (a ++ b).drop a.length = b :=
  List.drop_left a b

theorem goSlice_bracket (key rest : List Char) :
    goSlice ('[' :: (key ++ ']' :: rest)) 1 (key.length + 1) = some key := by
  have hlen : key.length + 1 ≤ ('[' :: (key ++ ']' :: rest)).length := by
    simp
  have ht : ('[' :: (key ++ ']' :: rest)).take (key.length + 1) = '[' :: key := by
    show '[' :: (key ++ ']' :: rest).take key.length = '[' :: key
    rw [take_len_append]
  unfold goSlice
  rw [if_pos ⟨by omega, hlen⟩, ht]
  rfl

theorem get?_bracket (key rest : List Char) :
    ('[' :: (key ++ ']' :: rest)).get? (key.length + 2) = rest.get? 0 := by
  show (key ++ ']' :: rest).get? (key.length + 1) = rest.get? 0
  have h2 : key.length ≤ key.length + 1 := by omega
  simp [List.get?_eq_getElem?, List.getElem?_append_right h2]

theorem drop_bracket_one (key rest : List Char) :
    ('[' :: (key ++ ']' :: rest)).drop (key.length + 2) = rest := by
  show (key ++ ']' :: rest).drop (key.length + 1) = rest
  rw [List.drop_append 1]
  rfl

theorem drop_bracket_two (key rest : List Char) :
    ('[' :: (key ++ ']' :: rest)).drop (key.length + 3) = rest.drop 1 := by
  show (key ++ ']' :: rest).drop (key.length + 2) = rest.drop 1
  rw [List.drop_append 2]
  rfl

/-- The two advancement cases collapse to `dropSep rest`: dropping past the
closing bracket and then one following separator if present. -/
theorem drop_advance (key rest : List Char) :
    (if ('[' :: (key ++ ']' :: rest)).get? (key.length + 2) = some '.'
      then ('[' :: (key ++ ']' :: rest)).drop (key.length + 3)
      else ('[' :: (key ++ ']' :: rest)).drop (key.length + 2)) = dropSep rest := by
  rw [get?_bracket]
  cases rest with
  | nil => simp [dropSep, drop_bracket_one]
  | cons x r =>
    by_cases hx : x = '.'
    · simp [hx, List.get?, drop_bracket_two, dropSep]
    · simp [List.get?, hx, drop_bracket_one, dropSep]

/-!  ## The struct-branch segment split  -/

theorem structParse_last {fld : List Char} (h : goodSeg fld) :
    structParse fld = (fld, []) := by
  have h1 : strIndex fld '.' = none := strIndex_eq_none (fun x hx => (h x hx).1)
  have h2 : strIndex fld '[' = none := strIndex_eq_none (fun x hx => (h x hx).2)
  simp [structParse, h1, h2]

theorem structParse_dot {fld r : List Char} (h : goodSeg fld) :
    structParse (fld ++ '.' :: r) = (fld, r) := by
  have h1 : strIndex (fld ++ '.' :: r) '.' = some fld.length :=
    strIndex_append_cons r (fun x hx => (h x hx).1)
  have ht : (fld ++ '.' :: r).take fld.length = fld := take_len_append fld _
  have h2 : strIndex fld '[' = none := strIndex_eq_none (fun x hx => (h x hx).2)
  have hd : (fld ++ '.' :: r).drop (fld.length + 1) = r := by
    show (fld ++ '.' :: r).drop (fld.length + 1) = r
    rw [List.drop_append 1]
    rfl
  simp [structParse, h1, ht, h2, hd]

theorem structParse_bracket {fld r : List Char} (h : goodSeg fld) :
    structParse (fld ++ '[' :: r) = (fld, '[' :: r) := by
  have hfld_dot : strIndex fld '.' = none := strIndex_eq_none (fun x hx => (h x hx).1)
  have hfld_br : ∀ x ∈ fld, x ≠ '[' := fun x hx => (h x hx).2
  have hdl : (fld ++ '[' :: r).drop fld.length = '[' :: r := drop_len_append fld _
  have hdot : strIndex (fld ++ '[' :: r) '.'
      = ((strIndex r '.').map (fun i => i + 1)).map (fun i => i + fld.length) := by
    rw [strIndex_append fld ('[' :: r) '.', hfld_dot, strIndex_cons_ne r (by decide)]
  cases hr : strIndex r '.' with
  | none =>
    rw [hr] at hdot
    simp at hdot
    have hbr : strIndex (fld ++ '[' :: r) '[' = some fld.length :=
      strIndex_append_cons r hfld_br
    have htl : (fld ++ '[' :: r).take fld.length = fld := take_len_append fld _
    simp [structParse, hdot, hbr, htl, hdl]
  | some j =>
    rw [hr] at hdot
    simp at hdot
    have htake : (fld ++ '[' :: r).take (j + 1 + fld.length)
        = fld ++ '[' :: r.take j := by
      have he : j + 1 + fld.length = fld.length + (j + 1) := by omega
      rw [he, List.take_append (j + 1)]
      rfl
    have hbr2 : strIndex ((fld ++ '[' :: r).take (j + 1 + fld.length)) '['
        = some fld.length := by
      rw [htake]; exact strIndex_append_cons _ hfld_br
    have htt : ((fld ++ '[' :: r).take (j + 1 + fld.length)).take fld.length
        = fld := by
      rw [htake, take_len_append fld ('[' :: r.take j)]
    simp [structParse, hdot, hbr2, htt, hdl]

/-!  ## `strconv` on plain digit strings  -/

theorem parseSign_digits {digs : List Char} (h1 : digs ≠ [])
    (h2 : ∀ c ∈ digs, c.isDigit) : parseSign digs = (1, digs) := by
  cases digs with
  | nil => exact absurd rfl h1
  | cons d r =>
    have hd : d.isDigit := h2 d (by simp)
    have hp : d ≠ '+' := by intro e; subst e; exact absurd hd (by decide)
    have hm : d ≠ '-' := by intro e; subst e; exact absurd hd (by decide)
    simp [parseSign, hp, hm]

theorem parseIntClamped_digits {digs : List Char} (h1 : digs ≠ [])
    (h2 : ∀ c ∈ digs, c.isDigit) (h3 : digitsVal digs < 2 ^ 63) :
    parseIntClamped 64 digs = (digitsVal digs : Int) := by
  have hall : digs.all Char.isDigit = true := by
    rw [List.all_eq_true]; exact fun c hc => h2 c hc
  unfold parseIntClamped
  rw [parseSign_digits h1 h2]
  simp only [h1, hall]
  have hnn : (0 : Int) ≤ (digitsVal digs : Int) := Int.ofNat_nonneg _
  have hlt : (digitsVal digs : Int) < 2 ^ 63 := by exact_mod_cast h3
  norm_num
  omega

/-!  ## The type unwrapper  -/

theorem extract_components (v : Value) (b : Bool) :
    (extractTypeInternal v b).1 = (extractTypeInternal v false).1 ∧
    (extractTypeInternal v b).2.1 = (extractTypeInternal v false).2.1 := by
  cases v with
  | ptr o => cases o <;> simp [extractTypeInternal]
  | iface o => cases o <;> simp [extractTypeInternal]
  | invalid => simp [extractTypeInternal]
  | vstring s => simp [extractTypeInternal]
  | vint n => simp [extractTypeInternal]
  | vbool b => simp [extractTypeInternal]
  | vfloat q => simp [extractTypeInternal]
  | vstruct tc fs => simp [extractTypeInternal]
  | slice xs => simp [extractTypeInternal]
  | array xs => simp [extractTypeInternal]
  | vmap kk es => simp [extractTypeInternal]

/-!  ## Step lemmas for the resolver  -/

theorem sfok_zero (v : Value) (ns : List Char) :
    getStructFieldOKInternal 0 v ns = .fuelOut := rfl

theorem sfok_succ (f : Nat) (v : Value) (ns : List Char) :
    getStructFieldOKInternal (f + 1) v ns
      = sfokStep (getStructFieldOKInternal f) (extractTypeInternal v false) ns := rfl

theorem sfokStep_invalid (rec : Value → List Char → Res) (c : Value) (nb : Bool)
    (ns : List Char) : sfokStep rec (c, .invalid, nb) ns = .ok c .invalid nb false := by
  simp [sfokStep]

theorem sfokStep_nil (rec : Value → List Char → Res) (c : Value) (k : Kind) (nb : Bool)
    (h : k ≠ .invalid) : sfokStep rec (c, k, nb) [] = .ok c k nb true := by
  simp [sfokStep, h]

theorem sfokStep_ptr (rec : Value → List Char → Res) (c : Value) (nb : Bool)
    (ns : List Char) (h : ns ≠ []) : sfokStep rec (c, .ptr, nb) ns = .ok c .ptr nb false := by
  simp [sfokStep, h]

theorem sfokStep_iface (rec : Value → List Char → Res) (c : Value) (nb : Bool)
    (ns : List Char) (h : ns ≠ []) :
    sfokStep rec (c, .interface, nb) ns = .ok c .interface nb false := by
  simp [sfokStep, h]

theorem sfokStep_struct (rec : Value → List Char → Res) (c : Value) (nb : Bool)
    (ns : List Char) (h : ns ≠ []) (ht : c.timeConv = false) :
    sfokStep rec (c, .struct, nb) ns
      = rec (fieldByName c.structFields (structParse ns).1) (structParse ns).2 := by
  simp [sfokStep, h, ht]

theorem sfokStep_struct_time (rec : Value → List Char → Res) (c : Value) (nb : Bool)
    (ns : List Char) (h : ns ≠ []) (ht : c.timeConv = true) :
    sfokStep rec (c, .struct, nb) ns = .fault invalidNamespaceMsg := by
  simp [sfokStep, h, ht]

theorem sfokStep_scalar (rec : Value → List Char → Res) (c : Value) (k : Kind) (nb : Bool)
    (ns : List Char) (h : ns ≠ [])
    (hk : k = .string ∨ k = .int ∨ k = .bool ∨ k = .float) :
    sfokStep rec (c, k, nb) ns = .fault invalidNamespaceMsg := by
  rcases hk with rfl | rfl | rfl | rfl <;> simp [sfokStep, h]

theorem drop_sep_eq (key rest : List Char) :
    ('[' :: (key ++ ']' :: rest)).drop
      (if ('[' :: (key ++ ']' :: rest)).get? (key.length + 2) = some '.'
        then key.length + 3 else key.length + 2) = dropSep rest := by
  rw [get?_bracket]
  cases rest with
  | nil => simp [dropSep, drop_bracket_one]
  | cons x r =>
    by_cases hx : x = '.'
    · subst hx
      rw [if_pos (show ('.' :: r).get? 0 = some '.' from rfl), drop_bracket_two]
      simp [dropSep]
    · rw [if_neg (show ¬ ((x :: r).get? 0 = some '.') from by simpa using hx),
        drop_bracket_one]
      simp [dropSep, hx]

theorem sfokStep_seq (rec : Value → List Char → Res) (c : Value) (k : Kind) (nb : Bool)
    {digs rest : List Char} (hk : k = .array ∨ k = .slice)
    (h1 : digs ≠ []) (h2 : ∀ ch ∈ digs, ch.isDigit) (h3 : digitsVal digs < 2 ^ 63) :
    sfokStep rec (c, k, nb) ('[' :: (digs ++ ']' :: rest))
      = if h : digitsVal digs < c.elems.length
          then rec (c.elems.get ⟨digitsVal digs, h⟩) (dropSep rest)
          else .ok c k nb false := by
  have hnb : ∀ ch ∈ digs, ch ≠ ']' := fun ch hc e => by
    subst e; exact absurd (h2 _ hc) (by decide)
  have hidx2 := strIndex_bracket_right rest hnb
  have hidxl := strIndex_bracket_left digs rest
  have hgs := goSlice_bracket digs rest
  have hparse := parseIntClamped_digits h1 h2 h3
  have e1 : digs.length + 1 + 1 = digs.length + 2 := rfl
  have e2 : digs.length + 1 + 2 = digs.length + 3 := rfl
  by_cases hlen : digitsVal digs < c.elems.length
  · rw [dif_pos hlen]
    have hle : ¬ ((c.elems.length : Int) ≤ ((digitsVal digs : Nat) : Int)) := by
      exact_mod_cast not_le.mpr hlen
    have hneg : ¬ (((digitsVal digs : Nat) : Int) < 0) := by omega
    have hgetd : c.elems.getD ((digitsVal digs : Nat) : Int).toNat Value.invalid
        = c.elems.get ⟨digitsVal digs, hlen⟩ := by
      simp [List.getD_eq_getElem?_getD, List.getElem?_eq_getElem hlen, List.get_eq_getElem]
    rcases hk with rfl | rfl <;>
      simp only [sfokStep, hidx2, hidxl, hgs, hparse, e1, e2, drop_sep_eq, hgetd,
        if_neg hle, if_neg hneg, List.cons_ne_nil, if_false, if_neg (by decide : ¬ (Kind.array = Kind.invalid)),
        if_neg (by decide : ¬ (Kind.slice = Kind.invalid))]
  · rw [dif_neg hlen]
    have hle : (c.elems.length : Int) ≤ ((digitsVal digs : Nat) : Int) := by
      exact_mod_cast not_lt.mp hlen
    rcases hk with rfl | rfl <;>
      simp only [sfokStep, hidx2, hidxl, hgs, hparse,
        if_pos hle, List.cons_ne_nil, if_false,
        if_neg (by decide : ¬ (Kind.array = Kind.invalid)),
        if_neg (by decide : ¬ (Kind.slice = Kind.invalid))]

theorem sfokStep_map (rec : Value → List Char → Res) (c : Value) (nb : Bool)
    {key rest : List Char} (hkey : ∀ ch ∈ key, ch ≠ ']') :
    sfokStep rec (c, .map, nb) ('[' :: (key ++ ']' :: rest))
      = rec (mapIndex c.mentries (convertMapKey c.keyKind key)) (dropSep rest) := by
  have hidx2 := strIndex_bracket_right rest hkey
  have hidxl := strIndex_bracket_left key rest
  have hgs := goSlice_bracket key rest
  have e1 : key.length + 1 + 1 = key.length + 2 := rfl
  by_cases hdot : ('[' :: (key ++ ']' :: rest)).get? (key.length + 2) = some '.'
  · have hds := drop_sep_eq key rest
    rw [if_pos hdot] at hds
    simp only [sfokStep, hidx2, hidxl, hgs, e1, List.cons_ne_nil,
      if_false, if_neg (by decide : ¬ (Kind.map = Kind.invalid))]
    rw [if_pos hdot, show key.length + 2 + 1 = key.length + 3 from rfl, hds]
  · have hds := drop_sep_eq key rest
    rw [if_neg hdot] at hds
    simp only [sfokStep, hidx2, hidxl, hgs, e1, List.cons_ne_nil,
      if_false, if_neg (by decide : ¬ (Kind.map = Kind.invalid))]
    rw [if_neg hdot, show key.length + 1 + 1 = key.length + 2 from rfl, hds]

/-!  ## The nullable flag never changes the control flow of a resolver step  -/

theorem sameShape_refl (r : Res) : r.sameShape r := by
  cases r <;> simp [Res.sameShape]

theorem sameShape_fault_iff {a b : Res} (h : a.sameShape b) (m : List Char) :
    (a = .fault m) ↔ (b = .fault m) := by
  cases a <;> cases b <;> simp_all [Res.sameShape]

theorem sfokStep_nullable (rec : Value → List Char → Res) (c : Value) (k : Kind)
    (nb nb' : Bool) (ns : List Char) :
    (sfokStep rec (c, k, nb) ns).sameShape (sfokStep rec (c, k, nb') ns) := by
  by_cases hk : k = .invalid
  · subst hk; simp [sfokStep, Res.sameShape]
  · by_cases hns : ns = []
    · subst hns; simp [sfokStep, hk, Res.sameShape]
    · simp only [sfokStep, if_neg hk, if_neg hns]
      repeat' split
      all_goals
        first
          | exact ⟨rfl, rfl, rfl⟩
          | exact sameShape_refl _

/-!  ## A shape-matching path never reaches a fault  -/

theorem pathMatches_no_fault {v : Value} {p : List Char} (h : PathMatches v p) :
    ∀ (f : Nat) (m : List Char), getStructFieldOKInternal f v p ≠ .fault m := by
  induction h with
  | done v =>
    intro f m
    cases f with
    | zero => simp [sfok_zero]
    | succ f =>
      rw [sfok_succ]
      rcases he : extractTypeInternal v false with ⟨c, k, nb⟩
      by_cases hk : k = .invalid
      · subst hk; rw [sfokStep_invalid]; simp
      · rw [sfokStep_nil _ _ _ _ hk]; simp
  | invalidAny p =>
    intro f m
    cases f with
    | zero => simp [sfok_zero]
    | succ f =>
      rw [sfok_succ,
        show extractTypeInternal Value.invalid false = (.invalid, .invalid, false) from rfl,
        sfokStep_invalid]
      simp
  | nilPtr p =>
    intro f m
    cases f with
    | zero => simp [sfok_zero]
    | succ f =>
      rw [sfok_succ,
        show extractTypeInternal (Value.ptr none) false = (.ptr none, .ptr, true) from rfl]
      by_cases hp : p = []
      · subst hp; rw [sfokStep_nil _ _ .ptr _ (by decide)]; simp
      · rw [sfokStep_ptr _ _ _ _ hp]; simp
  | nilIface p =>
    intro f m
    cases f with
    | zero => simp [sfok_zero]
    | succ f =>
      rw [sfok_succ,
        show extractTypeInternal (Value.iface none) false
          = (.iface none, .interface, true) from rfl]
      by_cases hp : p = []
      · subst hp; rw [sfokStep_nil _ _ .interface _ (by decide)]; simp
      · rw [sfokStep_iface _ _ _ _ hp]; simp
  | unwrapPtr hw ih =>
    rename_i w pp
    intro f m
    cases f with
    | zero => simp [sfok_zero]
    | succ f =>
      rw [sfok_succ,
        show extractTypeInternal (Value.ptr (some w)) false
          = extractTypeInternal w true from rfl]
      rcases het : extractTypeInternal w true with ⟨c1, k1, nb1⟩
      rcases hef : extractTypeInternal w false with ⟨c2, k2, nb2⟩
      have hcomp := extract_components w true
      rw [het, hef] at hcomp
      obtain ⟨hc, hk⟩ := hcomp
      simp only at hc hk
      subst hc; subst hk
      have hshape := sfokStep_nullable (getStructFieldOKInternal f) c1 k1 nb1 nb2 pp
      intro heq
      have heq2 := (sameShape_fault_iff hshape m).mp heq
      have hih := ih (f + 1) m
      rw [sfok_succ, hef] at hih
      exact hih heq2
  | unwrapIface hw ih =>
    rename_i w pp
    intro f m
    cases f with
    | zero => simp [sfok_zero]
    | succ f =>
      rw [sfok_succ,
        show extractTypeInternal (Value.iface (some w)) false
          = extractTypeInternal w true from rfl]
      rcases het : extractTypeInternal w true with ⟨c1, k1, nb1⟩
      rcases hef : extractTypeInternal w false with ⟨c2, k2, nb2⟩
      have hcomp := extract_components w true
      rw [het, hef] at hcomp
      obtain ⟨hc, hk⟩ := hcomp
      simp only at hc hk
      subst hc; subst hk
      have hshape := sfokStep_nullable (getStructFieldOKInternal f) c1 k1 nb1 nb2 pp
      intro heq
      have heq2 := (sameShape_fault_iff hshape m).mp heq
      have hih := ih (f + 1) m
      rw [sfok_succ, hef] at hih
      exact hih heq2
  | fieldLast hg hm ih =>
    rename_i fs fld
    intro f m
    cases f with
    | zero => simp [sfok_zero]
    | succ f =>
      by_cases hfld : fld = []
      · subst hfld
        rw [sfok_succ,
          show extractTypeInternal (Value.vstruct false fs) false
            = (.vstruct false fs, .struct, false) from rfl,
          sfokStep_nil _ _ .struct _ (by decide)]
        simp
      · rw [sfok_succ,
          show extractTypeInternal (Value.vstruct false fs) false
            = (.vstruct false fs, .struct, false) from rfl,
          sfokStep_struct _ (.vstruct false fs) _ _ hfld rfl, structParse_last hg]
        exact ih f m
  | fieldDot hg hm ih =>
    rename_i fs fld r
    intro f m
    cases f with
    | zero => simp [sfok_zero]
    | succ f =>
      rw [sfok_succ,
        show extractTypeInternal (Value.vstruct false fs) false
          = (.vstruct false fs, .struct, false) from rfl,
        sfokStep_struct _ (.vstruct false fs) _ _ (by simp) rfl, structParse_dot hg]
      exact ih f m
  | fieldBracket hg hm ih =>
    rename_i fs fld r
    intro f m
    cases f with
    | zero => simp [sfok_zero]
    | succ f =>
      rw [sfok_succ,
        show extractTypeInternal (Value.vstruct false fs) false
          = (.vstruct false fs, .struct, false) from rfl,
        sfokStep_struct _ (.vstruct false fs) _ _ (by simp) rfl, structParse_bracket hg]
      exact ih f m
  | sliceIndex h1 h2 h3 hsub ih =>
    rename_i xs digs rest
    intro f m
    cases f with
    | zero => simp [sfok_zero]
    | succ f =>
      rw [sfok_succ,
        show extractTypeInternal (Value.slice xs) false
          = (.slice xs, .slice, false) from rfl,
        sfokStep_seq _ (.slice xs) _ _ (Or.inr rfl) h1 h2 h3]
      by_cases hlen : digitsVal digs < (Value.slice xs).elems.length
      · rw [dif_pos hlen]
        exact ih hlen f m
      · rw [dif_neg hlen]
        simp
  | arrayIndex h1 h2 h3 hsub ih =>
    rename_i xs digs rest
    intro f m
    cases f with
    | zero => simp [sfok_zero]
    | succ f =>
      rw [sfok_succ,
        show extractTypeInternal (Value.array xs) false
          = (.array xs, .array, false) from rfl,
        sfokStep_seq _ (.array xs) _ _ (Or.inl rfl) h1 h2 h3]
      by_cases hlen : digitsVal digs < (Value.array xs).elems.length
      · rw [dif_pos hlen]
        exact ih hlen f m
      · rw [dif_neg hlen]
        simp
  | mapKey hkey hm ih =>
    rename_i kk es key rest
    intro f m
    cases f with
    | zero => simp [sfok_zero]
    | succ f =>
      rw [sfok_succ,
        show extractTypeInternal (Value.vmap kk es) false
          = (.vmap kk es, .map, false) from rfl,
        sfokStep_map _ (.vmap kk es) _ hkey]
      exact ih f m

/-!  ## The unwrapping loop runs for exactly `indirectionDepth + 1` iterations  -/

theorem extractLoop_exact : ∀ (v : Value) (nb : Bool),
    extractTypeLoop (indirectionDepth v + 1) v nb = some (extractTypeInternal v nb) ∧
    extractTypeLoop (indirectionDepth v) v nb = none
  | .invalid, _ => ⟨rfl, rfl⟩
  | .vstring _, _ => ⟨rfl, rfl⟩
  | .vint _, _ => ⟨rfl, rfl⟩
  | .vbool _, _ => ⟨rfl, rfl⟩
  | .vfloat _, _ => ⟨rfl, rfl⟩
  | .vstruct _ _, _ => ⟨rfl, rfl⟩
  | .slice _, _ => ⟨rfl, rfl⟩
  | .array _, _ => ⟨rfl, rfl⟩
  | .vmap _ _, _ => ⟨rfl, rfl⟩
  | .ptr none, _ => ⟨rfl, rfl⟩
  | .iface none, _ => ⟨rfl, rfl⟩
  | .ptr (some w), _ => ⟨(extractLoop_exact w true).1, (extractLoop_exact w true).2⟩
  | .iface (some w), _ => ⟨(extractLoop_exact w true).1, (extractLoop_exact w true).2⟩

/-!  ## Directive-free fields are left unchanged by the modelled traversal  -/

mutual
theorem noDirs_transformField : ∀ (name : List Char) (v : TVal), noDirsV v = true →
    transformField name [] v = .ok (v, [])
  | _, .str _, _ => rfl
  | _, .strOpt none, _ => rfl
  | _, .strOpt (some _), _ => rfl
  | name, .record fs, h => by
      have hrec := noDirs_transformFields fs (by simpa [noDirsV] using h)
      simp [transformField, hrec]

theorem noDirs_transformFields : ∀ (fs : TFields), noDirsF fs = true →
    transformFields fs = .ok (fs, [])
  | .nil, _ => rfl
  | .fcons name tag v rest, h => by
      rw [noDirsF] at h
      simp only [Bool.and_eq_true, decide_eq_true_eq] at h
      obtain ⟨⟨htag, hv⟩, hrest⟩ := h
      subst htag
      have h1 := noDirs_transformField name v hv
      have h2 := noDirs_transformFields rest hrest
      simp [transformFields, h1, h2]
end

/-!  ## Whole-resolver step corollaries  -/

theorem sfok_struct_dot (f : Nat) (fs : List (List Char × Value)) (fld r : List Char)
    (hg : goodSeg fld) :
    getStructFieldOKInternal (f + 1) (.vstruct false fs) (fld ++ '.' :: r)
      = getStructFieldOKInternal f (fieldByName fs fld) r := by
  rw [sfok_succ,
    show extractTypeInternal (Value.vstruct false fs) false
      = (.vstruct false fs, .struct, false) from rfl,
    sfokStep_struct _ (.vstruct false fs) _ _ (by simp) rfl, structParse_dot hg]
  rfl

theorem sfok_struct_bracket (f : Nat) (fs : List (List Char × Value)) (fld r : List Char)
    (hg : goodSeg fld) :
    getStructFieldOKInternal (f + 1) (.vstruct false fs) (fld ++ '[' :: r)
      = getStructFieldOKInternal f (fieldByName fs fld) ('[' :: r) := by
  rw [sfok_succ,
    show extractTypeInternal (Value.vstruct false fs) false
      = (.vstruct false fs, .struct, false) from rfl,
    sfokStep_struct _ (.vstruct false fs) _ _ (by simp) rfl, structParse_bracket hg]
  rfl

theorem sfok_struct_last (f : Nat) (fs : List (List Char × Value)) (fld : List Char)
    (hg : goodSeg fld) (hne : fld ≠ []) :
    getStructFieldOKInternal (f + 1) (.vstruct false fs) fld
      = getStructFieldOKInternal f (fieldByName fs fld) [] := by
  rw [sfok_succ,
    show extractTypeInternal (Value.vstruct false fs) false
      = (.vstruct false fs, .struct, false) from rfl,
    sfokStep_struct _ (.vstruct false fs) _ _ hne rfl, structParse_last hg]
  rfl

theorem sfok_slice (f : Nat) (xs : List Value) (digs rest : List Char)
    (h1 : digs ≠ []) (h2 : ∀ ch ∈ digs, ch.isDigit) (h3 : digitsVal digs < 2 ^ 63) :
    getStructFieldOKInternal (f + 1) (.slice xs) ('[' :: (digs ++ ']' :: rest))
      = if h : digitsVal digs < xs.length
          then getStructFieldOKInternal f (xs.get ⟨digitsVal digs, h⟩) (dropSep rest)
          else .ok (.slice xs) .slice false false := by
  rw [sfok_succ,
    show extractTypeInternal (Value.slice xs) false = (.slice xs, .slice, false) from rfl,
    sfokStep_seq _ (.slice xs) _ _ (Or.inr rfl) h1 h2 h3]
  rfl

theorem sfok_nil_found (f : Nat) (v : Value)
    (h : (extractTypeInternal v false).2.1 ≠ .invalid) :
    getStructFieldOKInternal (f + 1) v []
      = .ok (extractTypeInternal v false).1 (extractTypeInternal v false).2.1
          (extractTypeInternal v false).2.2 true := by
  rcases he : extractTypeInternal v false with ⟨c, k, nb⟩
  rw [he] at h
  rw [sfok_succ, he, sfokStep_nil _ _ _ _ (by simpa using h)]

/-!  # Claims  -/

/-- Claim C1: for a record with a single string field carrying the directive
chain `[trim, lowercase]` and input value `"  AbC  "`, the public entry point
succeeds (no fatal error, no per-field errors) and leaves the field holding
`"abc"` — trim, then lowercase, applied in declared chain order. -/
theorem c1_trim_lowercase_chain :
    structTransModel (some (.fcons (cs "Name") (cs "trim,lowercase")
        (.str (cs "  AbC  ")) .nil))
      = .done (.fcons (cs "Name") (cs "trim,lowercase") (.str (cs "abc")) .nil) [] := by
  rfl

/-- Claim C2: for every record in which no field declares a directive, the
public entry point returns no error and leaves the record unchanged. -/
theorem c2_no_directives_identity (fs : TFields) (h : noDirsF fs = true) :
    structTransModel (some fs) = .done fs [] := by
  simp [structTransModel, noDirs_transformFields fs h]

/-- Witness for C2 at a concrete two-field record with empty tags. -/
theorem c2_no_directives_identity_witness :
    structTransModel (some (.fcons (cs "A") [] (.str (cs "x"))
        (.fcons (cs "B") [] (.strOpt none) .nil)))
      = .done (.fcons (cs "A") [] (.str (cs "x"))
        (.fcons (cs "B") [] (.strOpt none) .nil)) [] :=
  c2_no_directives_identity _ rfl

/-- Claim C3: the `StructCtx` guard returns `*InvalidTransformError` exactly
when the once-dereferenced input is not a struct or is a struct convertible
to `time.Time` — in particular on a nil root and a `time.Time` value — and
the traversal is never entered in that case; a non-nil pointer to an
ordinary (non-time) struct passes the guard and proceeds to traversal. -/
theorem c3_usage_error_guard :
    (∀ s : Value, structCtx s = .invalidTransform ↔
        ((derefOnce s).kind ≠ .struct ∨ (derefOnce s).timeConv = true)) ∧
    structCtx .invalid = .invalidTransform ∧
    (∀ fs : List (List Char × Value), structCtx (.vstruct true fs) = .invalidTransform) ∧
    (∀ fs : List (List Char × Value),
        structCtx (.ptr (some (.vstruct true fs))) = .invalidTransform) ∧
    (∀ fs : List (List Char × Value),
        structCtx (.ptr (some (.vstruct false fs))) = .proceed (.vstruct false fs)) := by
  refine ⟨?_, rfl, fun fs => rfl, fun fs => rfl, fun fs => rfl⟩
  intro s
  show (if (derefOnce s).kind ≠ .struct ∨ (derefOnce s).timeConv = true
      then StructOutcome.invalidTransform else .proceed (derefOnce s))
    = .invalidTransform ↔ _
  by_cases hc : (derefOnce s).kind ≠ .struct ∨ (derefOnce s).timeConv = true
  · rw [if_pos hc]; simp [hc]
  · rw [if_neg hc]; simp [hc]

/-- Witness for C3: a nil pointer root is rejected by the guard. -/
theorem c3_usage_error_guard_witness :
    structCtx (.ptr none) = .invalidTransform :=
  (c3_usage_error_guard.1 (.ptr none)).mpr (Or.inl (by decide))

/-- Claim C5 counterexample: on a `time.Time`-convertible struct with path
segments remaining, the resolver does not return a not-found result — it
reaches the `panic("Invalid field namespace")` branch. -/
theorem c5_time_struct_counterexample :
    getStructFieldOKInternal 9 (.vstruct true []) ['x'] = .fault invalidNamespaceMsg ∧
    ∀ (cur : Value) (k : Kind) (nb : Bool),
      getStructFieldOKInternal 9 (.vstruct true []) ['x'] ≠ .ok cur k nb false := by
  refine ⟨rfl, ?_⟩
  intro cur k nb h
  rw [show getStructFieldOKInternal 9 (.vstruct true []) ['x']
      = .fault invalidNamespaceMsg from rfl] at h
  exact Res.noConfusion h

/-- Claim C5 (amended): when the resolver reaches a `time.Time`-convertible
struct while path segments remain, it does not descend into the struct: the
kind switch falls through and the call fails fatally with the
`"Invalid field namespace"` panic. -/
theorem c5_time_struct_is_fatal (f : Nat) (fs : List (List Char × Value))
    (ch : Char) (rest : List Char) :
    getStructFieldOKInternal (f + 1) (.vstruct true fs) (ch :: rest)
      = .fault invalidNamespaceMsg := by
  rw [sfok_succ,
    show extractTypeInternal (Value.vstruct true fs) false
      = (.vstruct true fs, .struct, false) from rfl]
  exact sfokStep_struct_time _ (.vstruct true fs) _ _ (by simp) rfl

/-- Claim C7: the type unwrapper is total — the Go loop returns after exactly
`indirectionDepth + 1` arrivals at `BEGIN` (and has not returned one
iteration earlier), strips exactly one pointer or interface layer per
iteration marking `nullable`, returns the wrapper itself on a nil wrapper,
returns immediately on an invalid value, and returns the concrete value and
its kind otherwise. -/
theorem c7_extract_type_total (v : Value) (nb : Bool) :
    extractTypeLoop (indirectionDepth v + 1) v nb = some (extractTypeInternal v nb) ∧
    extractTypeLoop (indirectionDepth v) v nb = none ∧
    (v = .ptr none → extractTypeInternal v nb = (v, .ptr, true)) ∧
    (v = .iface none → extractTypeInternal v nb = (v, .interface, true)) ∧
    (∀ w, v = .ptr (some w) → extractTypeInternal v nb = extractTypeInternal w true) ∧
    (∀ w, v = .iface (some w) → extractTypeInternal v nb = extractTypeInternal w true) ∧
    (v = .invalid → extractTypeInternal v nb = (v, .invalid, nb)) ∧
    (notWrapper v → v ≠ .invalid → extractTypeInternal v nb = (v, v.kind, nb)) := by
  refine ⟨(extractLoop_exact v nb).1, (extractLoop_exact v nb).2, ?_, ?_, ?_, ?_, ?_, ?_⟩
  · rintro rfl; rfl
  · rintro rfl; rfl
  · rintro w rfl; rfl
  · rintro w rfl; rfl
  · rintro rfl; rfl
  · intro hw hv
    cases v with
    | invalid => exact absurd rfl hv
    | ptr o => exact absurd hw (by simp [notWrapper])
    | iface o => exact absurd hw (by simp [notWrapper])
    | vstring s => rfl
    | vint n => rfl
    | vbool b => rfl
    | vfloat q => rfl
    | vstruct tc f => rfl
    | slice xs => rfl
    | array xs => rfl
    | vmap kk es => rfl

/-- Witness for C7 at one pointer layer around a string. -/
theorem c7_extract_type_total_witness :
    extractTypeInternal (.vstring ['x']) false = (.vstring ['x'], .string, false) :=
  (c7_extract_type_total (.vstring ['x']) false).2.2.2.2.2.2.2
    trivial (fun h => Value.noConfusion h)

/-- Claim C9: the claim is right and the code is wrong.  `registerTransformer`
returns a configuration error exactly when the name is empty or the function
is nil (the reserved-name set `restrictedTags` is empty, so a collision never
occurs); but on a freshly `New()`-constructed transformer the success branch
assigns into the nil `transformtions` map and faults instead of storing. -/
theorem c9_register_error_iff_and_nil_map_bug :
    (New []).transformtions = none ∧
    registerTransformer (New []) (cs "trim") (some (fun _ => true)) = .nilMapFault ∧
    restrictedTags = [] ∧
    (∀ (t : TransformM) (tag : List Char) (fn : Option FuncCtxM),
      (∃ msg, registerTransformer t tag fn = .err msg) ↔ (tag.length = 0 ∨ fn = none)) := by
  refine ⟨rfl, rfl, rfl, ?_⟩
  intro t tag fn
  unfold registerTransformer
  by_cases h0 : tag.length = 0
  · simp [h0]
  · rw [if_neg h0]
    cases fn with
    | none => simp
    | some f =>
      cases htr : t.transformtions with
      | none => simp [h0]
      | some m => simp [h0]

/-- Claim C10: a `New`-constructed transformer has a nil `transformtions`
map, so for every non-empty name and non-nil function the registration
reaches the assignment into the nil map (a runtime fault): the success
branch is never safely executable on a fresh transformer. -/
theorem c10_register_reaches_nil_map :
    (New []).transformtions = none ∧
    ∀ (tag : List Char) (f : FuncCtxM), tag ≠ [] →
      registerTransformer (New []) tag (some f) = .nilMapFault := by
  refine ⟨rfl, ?_⟩
  intro tag f h
  unfold registerTransformer
  rw [if_neg (by simpa using h)]
  rfl

/-- Witness for C10 at the name `"x"`. -/
theorem c10_register_reaches_nil_map_witness :
    registerTransformer (New []) (cs "x") (some (fun _ => true)) = .nilMapFault :=
  c10_register_reaches_nil_map.2 (cs "x") (fun _ => true) (by decide)

/-- Claim C4: resolving `"a.b[2].c"` against a root whose record field `a`
holds a record whose sequence field `b` has length at least 3 and whose
element 2 is a record with field `c` returns that `c` value (unwrapped) with
`found = true`; against the same shape where `b` has length 1 it returns
`found = false` — not-found, never a crash. -/
theorem c4_indexed_path_resolution :
    (∀ (f : Nat) (xs : List Value) (v : Value) (h3 : 2 < xs.length),
      xs.get ⟨2, h3⟩ = .vstruct false [(cs "c", v)] →
      (extractTypeInternal v false).2.1 ≠ .invalid →
      getStructFieldOKInternal (f + 5)
          (.vstruct false [(cs "a", .vstruct false [(cs "b", .slice xs)])])
          (cs "a.b[2].c")
        = .ok (extractTypeInternal v false).1 (extractTypeInternal v false).2.1
            (extractTypeInternal v false).2.2 true) ∧
    (∀ (f : Nat) (x : Value),
      getStructFieldOKInternal (f + 3)
          (.vstruct false [(cs "a", .vstruct false [(cs "b", .slice [x])])])
          (cs "a.b[2].c")
        = .ok (.slice [x]) .slice false false) := by
  constructor
  · intro f xs v h3 hx hv
    rw [show cs "a.b[2].c"
        = cs "a" ++ '.' :: (cs "b" ++ '[' :: (cs "2" ++ ']' :: cs ".c")) from rfl,
      show f + 5 = f + 4 + 1 from rfl,
      sfok_struct_dot (f + 4) _ (cs "a") _ (by unfold goodSeg; decide),
      show fieldByName [(cs "a", Value.vstruct false [(cs "b", Value.slice xs)])] (cs "a")
        = Value.vstruct false [(cs "b", Value.slice xs)] from rfl,
      show f + 4 = f + 3 + 1 from rfl,
      sfok_struct_bracket (f + 3) _ (cs "b") _ (by unfold goodSeg; decide),
      show fieldByName [(cs "b", Value.slice xs)] (cs "b") = Value.slice xs from rfl,
      show f + 3 = f + 2 + 1 from rfl,
      sfok_slice (f + 2) xs (cs "2") (cs ".c") (by decide) (by decide) (by decide),
      dif_pos (show digitsVal (cs "2") < xs.length from h3)]
    show getStructFieldOKInternal (f + 2) (xs.get ⟨2, h3⟩) (cs "c")
      = .ok (extractTypeInternal v false).1 (extractTypeInternal v false).2.1
          (extractTypeInternal v false).2.2 true
    rw [hx,
      show f + 2 = f + 1 + 1 from rfl,
      sfok_struct_last (f + 1) _ (cs "c") (by unfold goodSeg; decide) (by decide),
      show fieldByName [(cs "c", v)] (cs "c") = v from rfl]
    exact sfok_nil_found f v hv
  · intro f x
    rw [show cs "a.b[2].c"
        = cs "a" ++ '.' :: (cs "b" ++ '[' :: (cs "2" ++ ']' :: cs ".c")) from rfl,
      show f + 3 = f + 2 + 1 from rfl,
      sfok_struct_dot (f + 2) _ (cs "a") _ (by unfold goodSeg; decide),
      show fieldByName [(cs "a", Value.vstruct false [(cs "b", Value.slice [x])])] (cs "a")
        = Value.vstruct false [(cs "b", Value.slice [x])] from rfl,
      show f + 2 = f + 1 + 1 from rfl,
      sfok_struct_bracket (f + 1) _ (cs "b") _ (by unfold goodSeg; decide),
      show fieldByName [(cs "b", Value.slice [x])] (cs "b") = Value.slice [x] from rfl,
      sfok_slice f [x] (cs "2") (cs ".c") (by decide) (by decide) (by decide),
      dif_neg (show ¬ digitsVal (cs "2") < ([x] : List Value).length from by
        rw [show digitsVal (cs "2") = 2 from rfl]; simp)]

/-- Witness for C4 at a concrete three-element slice whose element 2 holds a
string field `c`. -/
theorem c4_indexed_path_resolution_witness :
    getStructFieldOKInternal 9
        (.vstruct false [(cs "a", .vstruct false
          [(cs "b", .slice [.invalid, .invalid,
            .vstruct false [(cs "c", .vstring (cs "ok"))]])])])
        (cs "a.b[2].c")
      = .ok (.vstring (cs "ok")) .string false true :=
  c4_indexed_path_resolution.1 4
    [.invalid, .invalid, .vstruct false [(cs "c", .vstring (cs "ok"))]]
    (.vstring (cs "ok")) (by decide) rfl (fun h => Kind.noConfusion h)

/-- Claim C6: when the resolver's current (unwrapped) value is of a scalar
kind — neither struct, array/slice, map, nor a nil/invalid wrapper — while
path segments remain, the kind switch falls through to the
`panic("Invalid field namespace")` contract violation; and that fatal branch
is unreachable on every root/path pair where the path matches the shape of
the record graph (`PathMatches`). -/
theorem c6_invalid_namespace_contract :
    (∀ (f : Nat) (s : List Char) (ch : Char) (rest : List Char),
        getStructFieldOKInternal (f + 1) (.vstring s) (ch :: rest)
          = .fault invalidNamespaceMsg) ∧
    (∀ (f : Nat) (n : Int) (ch : Char) (rest : List Char),
        getStructFieldOKInternal (f + 1) (.vint n) (ch :: rest)
          = .fault invalidNamespaceMsg) ∧
    (∀ (f : Nat) (b : Bool) (ch : Char) (rest : List Char),
        getStructFieldOKInternal (f + 1) (.vbool b) (ch :: rest)
          = .fault invalidNamespaceMsg) ∧
    (∀ (f : Nat) (q : Rat) (ch : Char) (rest : List Char),
        getStructFieldOKInternal (f + 1) (.vfloat q) (ch :: rest)
          = .fault invalidNamespaceMsg) ∧
    (∀ (v : Value) (p : List Char), PathMatches v p →
        ∀ (f : Nat) (m : List Char), getStructFieldOKInternal f v p ≠ .fault m) := by
  refine ⟨?_, ?_, ?_, ?_, fun v p h f m => pathMatches_no_fault h f m⟩
  · intro f s ch rest
    rw [sfok_succ]
    exact sfokStep_scalar _ (.vstring s) .string false _ (by simp) (Or.inl rfl)
  · intro f n ch rest
    rw [sfok_succ]
    exact sfokStep_scalar _ (.vint n) .int false _ (by simp) (Or.inr (Or.inl rfl))
  · intro f b ch rest
    rw [sfok_succ]
    exact sfokStep_scalar _ (.vbool b) .bool false _ (by simp) (Or.inr (Or.inr (Or.inl rfl)))
  · intro f q ch rest
    rw [sfok_succ]
    exact sfokStep_scalar _ (.vfloat q) .float false _ (by simp) (Or.inr (Or.inr (Or.inr rfl)))

/-- Witness for C6: a shape-matching field lookup never reaches the panic. -/
theorem c6_invalid_namespace_contract_witness :
    getStructFieldOKInternal 9 (.vstruct false [(cs "a", .vstring (cs "x"))]) (cs "a")
      ≠ .fault invalidNamespaceMsg :=
  c6_invalid_namespace_contract.2.2.2.2 _ _
    (PathMatches.fieldLast (by unfold goodSeg; decide) (PathMatches.done _)) 9 _

/-- Claim C8: at a map value the resolver takes the substring between the
brackets as the key, converts it to the map's statically declared key kind —
the `convertMapKey` switch covering every signed and unsigned integer width,
both floating-point widths, boolean, and string — looks up the converted
key, advances the namespace past the consumed segment (including a following
separator), and continues resolving from the selected entry. -/
theorem c8_map_key_resolution (f : Nat) (kk : KeyKind) (es : List (MapKey × Value))
    (key rest : List Char) (hkey : ∀ ch ∈ key, ch ≠ ']') :
    getStructFieldOKInternal (f + 1) (.vmap kk es) ('[' :: (key ++ ']' :: rest))
      = getStructFieldOKInternal f (mapIndex es (convertMapKey kk key)) (dropSep rest) := by
  rw [sfok_succ,
    show extractTypeInternal (Value.vmap kk es) false = (.vmap kk es, .map, false) from rfl,
    sfokStep_map _ (.vmap kk es) _ hkey]
  rfl

/-- Witness for C8 at a string-keyed map. -/
theorem c8_map_key_resolution_witness :
    getStructFieldOKInternal 2 (.vmap .string [(.ofString (cs "k"), .vstring (cs "v"))])
        ('[' :: (cs "k" ++ ']' :: []))
      = getStructFieldOKInternal 1
          (mapIndex [(.ofString (cs "k"), .vstring (cs "v"))]
            (convertMapKey .string (cs "k"))) (dropSep []) :=
  c8_map_key_resolution 1 .string [(.ofString (cs "k"), .vstring (cs "v"))]
    (cs "k") [] (by decide)

end GoTransform
